import Mathlib

/-!
Verification of the ASMR prompt generator's form-state/JSON core.

The development shallowly embeds the data model and the handlers of
`src/components/App.jsx`: the form state, the fixed option lists and presets,
the JSON builder (`handleGenerateJson`), the serializer
(`JSON.stringify(obj, null, 2)`), the self-test validator (`handleSelfTest`,
including a model of `JSON.parse` and of the `in` operator), the multi-select
toggle, preset application, reset, and the download-filename slug.

JavaScript machine strings are modelled as Lean `String`/`List Char`
(sequences of unicode scalar values); `\u` escapes that would denote lone
UTF-16 surrogates are mapped to the replacement behaviour of `Char.ofNat`.
`String.toLowerCase` is modelled per-character by `Char.toLower` (basic-latin
lowering), which is the fragment both the code and the spec rely on.
-/

/-! ## JSON values -/

/-- JSON values as produced by `JSON.parse`. Numbers keep their source lexeme:
no claim inspects numeric values, only parse success and object shape. -/
inductive Json where
  | null : Json
  | bool (b : Bool) : Json
  | num (lexeme : String) : Json
  | str (s : String) : Json
  | arr (elems : List Json) : Json
  | obj (fields : List (String × Json)) : Json

/-- JSON insignificant whitespace (ECMA-404 / `JSON.parse`): space, tab,
line feed, carriage return. -/
def isWsChar (c : Char) : Bool :=
  c = ' ' || c = '\t' || c = '\n' || c = '\r'

/-- Drop leading JSON whitespace. -/
def skipWs : List Char → List Char
  | [] => []
  | c :: cs => if isWsChar c then skipWs cs else c :: cs

/-- Hexadecimal digit value, as accepted in a `\u` escape. -/
def hexVal (c : Char) : Option Nat :=
  if 48 ≤ c.toNat ∧ c.toNat ≤ 57 then some (c.toNat - 48)
  else if 97 ≤ c.toNat ∧ c.toNat ≤ 102 then some (c.toNat - 87)
  else if 65 ≤ c.toNat ∧ c.toNat ≤ 70 then some (c.toNat - 55)
  else none

/-- Lowercase hexadecimal digit for a value below 16, as emitted by
`JSON.stringify` in `\u00xx` escapes. -/
def hexDigit (n : Nat) : Char :=
  if n < 10 then Char.ofNat (48 + n) else Char.ofNat (87 + n)

/-- Prepend a character to the string component of a string-parser result. -/
def consStr (c : Char) : Option (List Char × List Char) → Option (List Char × List Char)
  | none => none
  | some (s, r) => some (c :: s, r)

/-- Parse the body of a JSON string (the opening quote already consumed),
returning the decoded characters and the input following the closing quote.
Mirrors `JSON.parse` string handling: the named escapes, `\u` hex escapes,
and a ban on raw control characters. -/
def parseStringBody : List Char → Option (List Char × List Char)
  | [] => none
  | c :: cs =>
    if c = '\"' then some ([], cs)
    else if c = '\\' then
      match cs with
      | [] => none
      | e :: cs' =>
        if e = '\"' then consStr '\"' (parseStringBody cs')
        else if e = '\\' then consStr '\\' (parseStringBody cs')
        else if e = '/' then consStr '/' (parseStringBody cs')
        else if e = 'b' then consStr (Char.ofNat 8) (parseStringBody cs')
        else if e = 'f' then consStr (Char.ofNat 12) (parseStringBody cs')
        else if e = 'n' then consStr '\n' (parseStringBody cs')
        else if e = 'r' then consStr '\r' (parseStringBody cs')
        else if e = 't' then consStr '\t' (parseStringBody cs')
        else if e = 'u' then
          match cs' with
          | h1 :: h2 :: h3 :: h4 :: cs'' =>
            match hexVal h1, hexVal h2, hexVal h3, hexVal h4 with
            | some a, some b, some c2, some d =>
              consStr (Char.ofNat (((a * 16 + b) * 16 + c2) * 16 + d)) (parseStringBody cs'')
            | _, _, _, _ => none
          | _ => none
        else none
    else if c.toNat < 32 then none
    else consStr c (parseStringBody cs)

/-- Parse the optional exponent part of a JSON number and assemble the lexeme. -/
def numAfterExpPart (acc : List Char) (cs : List Char) : Option (Json × List Char) :=
  match cs with
  | c :: r =>
    if c = 'e' ∨ c = 'E' then
      let (sgn, r1) := match r with
        | s :: r' => if s = '+' ∨ s = '-' then ([s], r') else (([] : List Char), r)
        | [] => ([], r)
      let (ds, r2) := r1.span (fun d => d.isDigit)
      if ds = [] then none else some (Json.num (String.mk (acc ++ c :: (sgn ++ ds))), r2)
    else some (Json.num (String.mk acc), cs)
  | [] => some (Json.num (String.mk acc), [])

/-- Parse the optional fraction part of a JSON number, then the exponent. -/
def numAfterInt (acc : List Char) (cs : List Char) : Option (Json × List Char) :=
  match cs with
  | '.' :: r =>
    let (ds, r') := r.span (fun d => d.isDigit)
    if ds = [] then none else numAfterExpPart (acc ++ '.' :: ds) r'
  | _ => numAfterExpPart acc cs

/-- Parse a JSON number (grammar check only; the value is kept as a lexeme). -/
def parseNumber (cs : List Char) : Option (Json × List Char) :=
  let (sgn, cs1) := match cs with
    | c :: r => if c = '-' then ([c], r) else (([] : List Char), cs)
    | [] => ([], cs)
  match cs1 with
  | [] => none
  | c :: r =>
    if c = '0' then numAfterInt (sgn ++ [c]) r
    else if c.isDigit then
      let (ds, r') := r.span (fun d => d.isDigit)
      numAfterInt (sgn ++ c :: ds) r'
    else none

/-- Match an expected literal tail (for `null` / `true` / `false`). -/
def expectLit (lit : List Char) (cs : List Char) (j : Json) : Option (Json × List Char) :=
  match lit, cs with
  | [], _ => some (j, cs)
  | l :: ls, c :: cs' => if c = l then expectLit ls cs' j else none
  | _ :: _, [] => none

/-- Insert a parsed object member as `JSON.parse` does: a repeated key keeps
its original position and takes the later value; a fresh key is appended. -/
def objInsert (kvs : List (String × Json)) (k : String) (v : Json) : List (String × Json) :=
  if kvs.any (fun kv => kv.1 == k) then
    kvs.map (fun kv => if kv.1 == k then (k, v) else kv)
  else kvs ++ [(k, v)]

mutual
/-- Fuel-indexed recursive-descent JSON value parser modelling `JSON.parse`.
The fuel only bounds nesting of the mutual recursion; `parseJson` supplies
`input length + 1`, which the development shows is never the limiting factor
on parseable input. Returns the value and the unconsumed input. -/
def parseV : Nat → List Char → Option (Json × List Char)
  | 0, _ => none
  | Nat.succ fuel, cs =>
    match skipWs cs with
    | [] => none
    | c :: r =>
      if c = 'n' then expectLit ['u', 'l', 'l'] r Json.null
      else if c = 't' then expectLit ['r', 'u', 'e'] r (Json.bool true)
      else if c = 'f' then expectLit ['a', 'l', 's', 'e'] r (Json.bool false)
      else if c = '\"' then
        match parseStringBody r with
        | none => none
        | some (s, r1) => some (Json.str (String.mk s), r1)
      else if c = '[' then
        if (skipWs r).head? = some ']' then some (Json.arr [], (skipWs r).tail)
        else parseArrItems fuel r []
      else if c = Char.ofNat 123 then
        if (skipWs r).head? = some (Char.ofNat 125) then some (Json.obj [], (skipWs r).tail)
        else parseObjItems fuel r []
      else if c = '-' ∨ c.isDigit then parseNumber (c :: r)
      else none

/-- Parse the elements of a non-empty JSON array (after the opening bracket). -/
def parseArrItems : Nat → List Char → List Json → Option (Json × List Char)
  | 0, _, _ => none
  | Nat.succ fuel, cs, acc =>
    match parseV fuel cs with
    | none => none
    | some (v, r) =>
      match skipWs r with
      | c :: r' =>
        if c = ',' then parseArrItems fuel r' (acc ++ [v])
        else if c = ']' then some (Json.arr (acc ++ [v]), r')
        else none
      | [] => none

/-- Parse the members of a non-empty JSON object (after the opening brace). -/
def parseObjItems : Nat → List Char → List (String × Json) → Option (Json × List Char)
  | 0, _, _ => none
  | Nat.succ fuel, cs, acc =>
    match skipWs cs with
    | c0 :: r =>
      if c0 = '\"' then
        match parseStringBody r with
        | none => none
        | some (k, r1) =>
          match skipWs r1 with
          | c1 :: r2 =>
            if c1 = ':' then
              match parseV fuel r2 with
              | none => none
              | some (v, r3) =>
                match skipWs r3 with
                | c2 :: r4 =>
                  if c2 = ',' then parseObjItems fuel r4 (objInsert acc (String.mk k) v)
                  else if c2 = Char.ofNat 125 then
                    some (Json.obj (objInsert acc (String.mk k) v), r4)
                  else none
                | [] => none
            else none
          | [] => none
      else none
    | [] => none
end

/-- Model of `JSON.parse`: parse one value, allow trailing whitespace only. -/
def parseJson (s : String) : Option Json :=
  match parseV (s.data.length + 1) s.data with
  | some (j, rest) =>
    match skipWs rest with
    | [] => some j
    | _ => none
  | none => none

/-! ## JSON serialization: `JSON.stringify(value, null, 2)` -/

/-- Escape one character as `JSON.stringify` quoting does: quote, backslash,
the named control escapes, `\u00xx` for the remaining control characters,
and every other character verbatim. -/
def escapeChar (c : Char) : List Char :=
  if c = '\"' then ['\\', '\"']
  else if c = '\\' then ['\\', '\\']
  else if c.toNat = 8 then ['\\', 'b']
  else if c.toNat = 9 then ['\\', 't']
  else if c.toNat = 10 then ['\\', 'n']
  else if c.toNat = 12 then ['\\', 'f']
  else if c.toNat = 13 then ['\\', 'r']
  else if c.toNat < 32 then
    ['\\', 'u', '0', '0', hexDigit (c.toNat / 16), hexDigit (c.toNat % 16)]
  else [c]

/-- Escape a string body for JSON output. -/
def escapeL (cs : List Char) : List Char := (cs.map escapeChar).flatten

/-- An indentation run of spaces. -/
def spaces (n : Nat) : List Char := List.replicate n ' '

mutual
/-- Pretty-print a JSON value as `JSON.stringify(value, null, 2)` does, with
`ind` the current indentation width (children are indented `ind + 2`). -/
def prettyV : Json → Nat → List Char
  | Json.null, _ => ['n', 'u', 'l', 'l']
  | Json.bool true, _ => ['t', 'r', 'u', 'e']
  | Json.bool false, _ => ['f', 'a', 'l', 's', 'e']
  | Json.num lexeme, _ => lexeme.data
  | Json.str s, _ => '\"' :: (escapeL s.data ++ ['\"'])
  | Json.arr [], _ => ['[', ']']
  | Json.arr (x :: xs), ind =>
    '[' :: '\n' :: (spaces (ind + 2) ++ prettyV x (ind + 2) ++ prettyArrTail xs (ind + 2)
      ++ '\n' :: (spaces ind ++ [']']))
  | Json.obj [], _ => [Char.ofNat 123, Char.ofNat 125]
  | Json.obj (kv :: kvs), ind =>
    Char.ofNat 123 :: '\n' :: (spaces (ind + 2) ++ prettyMember kv (ind + 2)
      ++ prettyObjTail kvs (ind + 2) ++ '\n' :: (spaces ind ++ [Char.ofNat 125]))

/-- Pretty-print one object member, `"key": value`. -/
def prettyMember : (String × Json) → Nat → List Char
  | (k, v), ind => '\"' :: (escapeL k.data ++ '\"' :: ':' :: ' ' :: prettyV v ind)

/-- Pretty-print the remaining array elements, each on its own line. -/
def prettyArrTail : List Json → Nat → List Char
  | [], _ => []
  | x :: xs, ind => ',' :: '\n' :: (spaces ind ++ prettyV x ind ++ prettyArrTail xs ind)

/-- Pretty-print the remaining object members, each on its own line. -/
def prettyObjTail : List (String × Json) → Nat → List Char
  | [], _ => []
  | kv :: kvs, ind => ',' :: '\n' :: (spaces ind ++ prettyMember kv ind ++ prettyObjTail kvs ind)
end

/-- Model of `JSON.stringify(value, null, 2)`. -/
def jsonStringify2 (j : Json) : String := String.mk (prettyV j 0)

/-! ## Size measures and well-formedness used by the roundtrip proof -/

mutual
/-- Node-count-style measure used to bound the parser fuel. -/
def sizeJ : Json → Nat
  | Json.null => 1
  | Json.bool _ => 1
  | Json.num _ => 1
  | Json.str _ => 1
  | Json.arr xs => 1 + sizeL xs
  | Json.obj kvs => 1 + sizeM kvs

/-- Measure of an element list. -/
def sizeL : List Json → Nat
  | [] => 0
  | x :: xs => sizeJ x + 1 + sizeL xs

/-- Measure of a member list. -/
def sizeM : List (String × Json) → Nat
  | [] => 0
  | kv :: kvs => sizeJ kv.2 + 1 + sizeM kvs
end

/-- Keys of an object member list are pairwise distinct. -/
def keysDistinct : List (String × Json) → Bool
  | [] => true
  | (k, _) :: kvs => !(kvs.any (fun kv => kv.1 == k)) && keysDistinct kvs

mutual
/-- Well-formedness for the roundtrip: no number leaves (the builder emits
none, and number lexemes are not re-parsed) and object keys pairwise
distinct at every level. -/
def wfJ : Json → Bool
  | Json.null => true
  | Json.bool _ => true
  | Json.num _ => false
  | Json.str _ => true
  | Json.arr xs => wfL xs
  | Json.obj kvs => keysDistinct kvs && wfM kvs

/-- Well-formedness of an element list. -/
def wfL : List Json → Bool
  | [] => true
  | x :: xs => wfJ x && wfL xs

/-- Well-formedness of a member list. -/
def wfM : List (String × Json) → Bool
  | [] => true
  | kv :: kvs => wfJ kv.2 && wfM kvs
end

/-! ## Option lists and presets (`App.jsx` top-level constants) -/

def MOODS : List String :=
  ["Calm", "Cozy", "Mysterious", "Ethereal", "Melancholy", "Dreamy"]

def CAMERA_MOVEMENTS : List String :=
  ["Static", "Slow Pan", "Slow Zoom In", "Slow Zoom Out", "Dolly", "Handheld"]

def CAMERA_ANGLES : List String :=
  ["Eye-level", "Low Angle", "High Angle", "Dutch Angle", "Close-up", "Wide Shot"]

def CAMERA_FOCUS : List String :=
  ["Soft Focus", "Deep Focus", "Rack Focus", "Shallow Depth of Field"]

def PRIMARY_SOUNDS : List String :=
  ["Rain", "Fireplace", "Wind", "Ocean Waves", "Forest Ambience", "Keyboard Typing", "None"]

def SECONDARY_SOUNDS : List String :=
  ["Thunder", "Birds Chirping", "Pages Turning", "Whispering", "Ticking Clock", "Purring Cat"]

def SOUND_QUALITIES : List String :=
  ["High-Fidelity (Binaural)", "Lo-fi", "Muffled", "Crisp"]

def VISUAL_EFFECTS : List String :=
  ["Soft Glow", "Fog", "Muted Tones", "Film Grain", "Lens Flare", "Dust Particles"]

/-- The form state held by the `App` component. -/
structure FormState where
  idea : String
  moods : List String
  cameraMovement : String
  cameraAngle : String
  cameraFocus : String
  soundscapePrimary : String
  soundscapeSecondary : List String
  soundscapeQuality : String
  visualEffects : List String
deriving DecidableEq

/-- The `settings` object of a preset. Every preset in `PRESETS` populates
exactly these eight fields; no preset carries an `idea`. -/
structure PresetSettings where
  moods : List String
  cameraMovement : String
  cameraAngle : String
  cameraFocus : String
  soundscapePrimary : String
  soundscapeSecondary : List String
  soundscapeQuality : String
  visualEffects : List String
deriving DecidableEq, Inhabited

/-- A named preset. -/
structure Preset where
  name : String
  settings : PresetSettings
deriving DecidableEq, Inhabited

/-- The fixed preset table. -/
def PRESETS : List Preset := [
  { name := "Forest Rain",
    settings := {
      moods := ["Calm", "Melancholy"],
      cameraMovement := "Slow Zoom In",
      cameraAngle := "Low Angle",
      cameraFocus := "Soft Focus",
      soundscapePrimary := "Rain",
      soundscapeSecondary := ["Thunder", "Wind"],
      soundscapeQuality := "High-Fidelity (Binaural)",
      visualEffects := ["Fog", "Muted Tones"] } },
  { name := "Cozy Fireplace",
    settings := {
      moods := ["Cozy", "Calm"],
      cameraMovement := "Static",
      cameraAngle := "Eye-level",
      cameraFocus := "Shallow Depth of Field",
      soundscapePrimary := "Fireplace",
      soundscapeSecondary := ["Ticking Clock", "Purring Cat"],
      soundscapeQuality := "High-Fidelity (Binaural)",
      visualEffects := ["Soft Glow", "Film Grain"] } },
  { name := "Late Night Study",
    settings := {
      moods := ["Calm", "Cozy"],
      cameraMovement := "Slow Pan",
      cameraAngle := "High Angle",
      cameraFocus := "Rack Focus",
      soundscapePrimary := "Keyboard Typing",
      soundscapeSecondary := ["Pages Turning", "Whispering"],
      soundscapeQuality := "Crisp",
      visualEffects := ["Soft Glow", "Dust Particles"] } },
  { name := "Ethereal Dream",
    settings := {
      moods := ["Ethereal", "Dreamy", "Mysterious"],
      cameraMovement := "Dolly",
      cameraAngle := "Wide Shot",
      cameraFocus := "Soft Focus",
      soundscapePrimary := "Wind",
      soundscapeSecondary := [],
      soundscapeQuality := "Muffled",
      visualEffects := ["Soft Glow", "Fog", "Muted Tones"] } }
]

/-- The initial form state (`initialState` in `App.jsx`): empty idea, empty
multi-select lists, the first option of each enumerated list. -/
def initialState : FormState := {
  idea := "",
  moods := [],
  cameraMovement := CAMERA_MOVEMENTS.getD 0 "",
  cameraAngle := CAMERA_ANGLES.getD 0 "",
  cameraFocus := CAMERA_FOCUS.getD 0 "",
  soundscapePrimary := PRIMARY_SOUNDS.getD 0 "",
  soundscapeSecondary := [],
  soundscapeQuality := SOUND_QUALITIES.getD 0 "",
  visualEffects := [] }

/-! ## Form-state operations -/

/-- The three multi-valued fields `toggleMultiSelect` is invoked with. -/
inductive MultiField where
  | moods : MultiField
  | soundscapeSecondary : MultiField
  | visualEffects : MultiField
deriving DecidableEq

/-- Read a multi-valued field. -/
def getMulti (fs : FormState) : MultiField → List String
  | MultiField.moods => fs.moods
  | MultiField.soundscapeSecondary => fs.soundscapeSecondary
  | MultiField.visualEffects => fs.visualEffects

/-- Write a multi-valued field. -/
def setMulti (fs : FormState) : MultiField → List String → FormState
  | MultiField.moods, l => { fs with moods := l }
  | MultiField.soundscapeSecondary, l => { fs with soundscapeSecondary := l }
  | MultiField.visualEffects, l => { fs with visualEffects := l }

/-- `toggleMultiSelect(item, field)`: remove every occurrence of a selected
item, append an unselected one. -/
def toggleMultiSelect (item : String) (field : MultiField) (fs : FormState) : FormState :=
  let currentSelection := getMulti fs field
  let newSelection :=
    if currentSelection.contains item then currentSelection.filter (fun i => i != item)
    else currentSelection ++ [item]
  setMulti fs field newSelection

/-- `handleApplyPreset`: spread the preset's settings over the previous
state; the `idea` field is not part of any settings object and is kept. -/
def handleApplyPreset (preset : Preset) (fs : FormState) : FormState :=
  { fs with
    moods := preset.settings.moods,
    cameraMovement := preset.settings.cameraMovement,
    cameraAngle := preset.settings.cameraAngle,
    cameraFocus := preset.settings.cameraFocus,
    soundscapePrimary := preset.settings.soundscapePrimary,
    soundscapeSecondary := preset.settings.soundscapeSecondary,
    soundscapeQuality := preset.settings.soundscapeQuality,
    visualEffects := preset.settings.visualEffects }

/-- The idea text input's `onChange` (`handleInputChange` with `name = "idea"`). -/
def setIdea (v : String) (fs : FormState) : FormState := { fs with idea := v }

/-- The camera-movement select's `onChange`. -/
def setCameraMovement (v : String) (fs : FormState) : FormState := { fs with cameraMovement := v }

/-- The camera-angle select's `onChange`. -/
def setCameraAngle (v : String) (fs : FormState) : FormState := { fs with cameraAngle := v }

/-- The camera-focus select's `onChange`. -/
def setCameraFocus (v : String) (fs : FormState) : FormState := { fs with cameraFocus := v }

/-- The primary-sound select's `onChange`. -/
def setSoundscapePrimary (v : String) (fs : FormState) : FormState := { fs with soundscapePrimary := v }

/-- The sound-quality select's `onChange`. -/
def setSoundscapeQuality (v : String) (fs : FormState) : FormState := { fs with soundscapeQuality := v }

/-! ## The JSON builder (`handleGenerateJson`) -/

/-- The `jsonObject` assembled by `handleGenerateJson` from a form state. -/
def buildJsonObject (fs : FormState) : Json :=
  Json.obj [
    ("title", Json.str fs.idea),
    ("description", Json.str ("An ASMR-style video about: " ++ fs.idea ++ ".")),
    ("style", Json.str "ASMR"),
    ("mood", Json.arr (fs.moods.map Json.str)),
    ("camera", Json.obj [
      ("movement", Json.str fs.cameraMovement),
      ("angle", Json.str fs.cameraAngle),
      ("focus", Json.str fs.cameraFocus)]),
    ("soundscape", Json.obj [
      ("primary", Json.str fs.soundscapePrimary),
      ("secondary", Json.arr (fs.soundscapeSecondary.map Json.str)),
      ("quality", Json.str fs.soundscapeQuality)]),
    ("visual_effects", Json.arr (fs.visualEffects.map Json.str))
  ]

/-- The serialized text stored in `generatedJson` by `handleGenerateJson`. -/
def generateJsonString (fs : FormState) : String :=
  jsonStringify2 (buildJsonObject fs)

/-! ## The validator (`handleSelfTest`) -/

/-- The three-valued validation status. -/
inductive ValidationStatus where
  | unchecked : ValidationStatus
  | valid : ValidationStatus
  | invalid : ValidationStatus
deriving DecidableEq

/-- First value bound to a key in a member list (parsed objects have
pairwise-distinct keys, so this is the unique binding). -/
def lookupKey : List (String × Json) → String → Option Json
  | [], _ => none
  | (k', v) :: kvs, k => if k' == k then some v else lookupKey kvs k

/-- Property read `j.k`, as used on a parsed value: an absent key or a
non-object target gives `undefined`, modelled as `none`. -/
def jsGet (j : Json) (k : String) : Option Json :=
  match j with
  | Json.obj kvs => lookupKey kvs k
  | _ => none

/-- The `in` operator on a parsed JSON value, for the fixed key names the
self-test queries (none is an array index, `length`, or an
`Object.prototype` member): present on an object, absent on an array, and a
`TypeError` — modelled as `none` — on a primitive. -/
def jsIn (k : String) (j : Json) : Option Bool :=
  match j with
  | Json.obj kvs => some (kvs.any (fun kv => kv.1 == k))
  | Json.arr _ => some false
  | _ => none

/-- `keys.every(key => key in parsed)`: left-to-right with short-circuit on
the first `false`; a thrown `TypeError` propagates as `none`. -/
def jsEvery (keys : List String) (j : Json) : Option Bool :=
  match keys with
  | [] => some true
  | k :: ks =>
    match jsIn k j with
    | none => none
    | some false => some false
    | some true => jsEvery ks j

/-- `k1 in o && k2 in o && k3 in o` where `o` is a property read that may be
`undefined` (`in` on `undefined` throws); `&&` short-circuits. -/
def nestedKeysOk (o : Option Json) (k1 k2 k3 : String) : Option Bool :=
  match o with
  | none => none
  | some v =>
    match jsIn k1 v with
    | none => none
    | some false => some false
    | some true =>
      match jsIn k2 v with
      | none => none
      | some false => some false
      | some true => jsIn k3 v

/-- The top-level keys `handleSelfTest` requires. -/
def requiredKeys : List String :=
  ["title", "description", "style", "mood", "camera", "soundscape", "visual_effects"]

/-- The checks `handleSelfTest` runs on the parsed value; `none` is a thrown
`TypeError` (caught by the surrounding `try`). -/
def selfTestChecks (parsed : Json) : Option Bool :=
  match jsEvery requiredKeys parsed with
  | none => none
  | some hasAllKeys =>
    match nestedKeysOk (jsGet parsed "camera") "movement" "angle" "focus" with
    | none => none
    | some cameraKeysOk =>
      match nestedKeysOk (jsGet parsed "soundscape") "primary" "secondary" "quality" with
      | none => none
      | some soundscapeKeysOk => some (hasAllKeys && cameraKeysOk && soundscapeKeysOk)

/-- The validation status `handleSelfTest` computes from the generated JSON
text: parse failures and thrown checks are caught and yield `invalid`. -/
def selfTestStatus (generatedJson : String) : ValidationStatus :=
  match parseJson generatedJson with
  | none => ValidationStatus.invalid
  | some parsed =>
    match selfTestChecks parsed with
    | some true => ValidationStatus.valid
    | some false => ValidationStatus.invalid
    | none => ValidationStatus.invalid

/-- Membership of a key in a member list. -/
def hasKeyB (kvs : List (String × Json)) (k : String) : Bool :=
  kvs.any (fun kv => kv.1 == k)

/-- The structural shape the spec says the validator accepts: a top-level
object with all seven required keys, whose `camera` value is an object with
`movement`/`angle`/`focus` and whose `soundscape` value is an object with
`primary`/`secondary`/`quality`. Stated from the spec's words, to be compared
with `selfTestChecks`. -/
def claimShape : Json → Bool
  | Json.obj kvs =>
    requiredKeys.all (fun k => hasKeyB kvs k) &&
    (match lookupKey kvs "camera" with
     | some (Json.obj c) => hasKeyB c "movement" && hasKeyB c "angle" && hasKeyB c "focus"
     | _ => false) &&
    (match lookupKey kvs "soundscape" with
     | some (Json.obj sc) => hasKeyB sc "primary" && hasKeyB sc "secondary" && hasKeyB sc "quality"
     | _ => false)
  | _ => false

/-! ## Download filename slug (`handleDownloadJson`) -/

/-- Code points matched by the JavaScript regex class `\s` and removed by
`String.prototype.trim`: tab, line feed, vertical tab, form feed, carriage
return, space, no-break space, ogham space mark, the en-quad .. hair-space
range, line separator, paragraph separator, narrow no-break space,
medium mathematical space, ideographic space, and the BOM. -/
def regexWsCodes : List Nat :=
  [9, 10, 11, 12, 13, 32, 160, 5760, 8192, 8193, 8194, 8195, 8196, 8197, 8198,
   8199, 8200, 8201, 8202, 8232, 8233, 8239, 8287, 12288, 65279]

/-- Whitespace in the JavaScript `\s` / `trim` sense. -/
def isRegexWs (c : Char) : Bool := regexWsCodes.contains c.toNat

/-- Drop leading `\s`-whitespace. -/
def dropLeadWs : List Char → List Char
  | [] => []
  | c :: cs => if isRegexWs c then dropLeadWs cs else c :: cs

/-- `String.prototype.trim`: drop whitespace at both ends. -/
def jsTrimList (cs : List Char) : List Char :=
  ((dropLeadWs ((dropLeadWs cs).reverse)).reverse)

/-- Worker for `replace(/\s+/g, "_")`: the flag records whether the previous
character belonged to a whitespace run that already emitted its underscore. -/
def collapseWsGo : Bool → List Char → List Char
  | _, [] => []
  | prevWs, c :: cs =>
    if isRegexWs c then
      if prevWs then collapseWsGo true cs else '_' :: collapseWsGo true cs
    else c :: collapseWsGo false cs

/-- `replace(/\s+/g, "_")`: each maximal whitespace run becomes one underscore. -/
def collapseWs (cs : List Char) : List Char := collapseWsGo false cs

/-- Per-character model of `String.prototype.toLowerCase`. -/
def toLowerList (cs : List Char) : List Char := cs.map Char.toLower

/-- The download filename computed by `handleDownloadJson`:
`idea.trim().toLowerCase().replace(/\s+/g, "_") || "prompt"` plus `".json"`. -/
def downloadFileName (idea : String) : String :=
  (if (collapseWs (toLowerList (jsTrimList idea.data))).isEmpty then "prompt"
   else String.mk (collapseWs (toLowerList (jsTrimList idea.data)))) ++ ".json"

/-- The filename the spec describes: the idea lowercased with internal
whitespace runs collapsed to single underscores, plus `".json"`, or
`"prompt.json"` when the idea is empty after trimming. The spec's runs are
internal because the idea is trimmed first (its empty case names the trim);
here the spec's order — lowercase, then trim, then collapse — is kept, to be
compared with the code's trim-first pipeline. -/
def specFileName (idea : String) : String :=
  if jsTrimList idea.data = [] then "prompt.json"
  else String.mk (collapseWs (jsTrimList (toLowerList idea.data))) ++ ".json"

/-! ## Application state and handlers -/

/-- The component state the claims concern: the form, the generated JSON
text (absent until generated), the validation status, and the copy-button
label. The theme states are out of scope of every claim. -/
structure AppState where
  formState : FormState
  generatedJson : Option String
  validationStatus : ValidationStatus
  copyButtonText : String
deriving DecidableEq

/-- Externally visible side effects a handler can emit. -/
inductive Effect where
  | clipboardWrite (text : String) : Effect
  | downloadFile (fileName : String) (content : String) : Effect
deriving DecidableEq

/-- The state at mount: `initialState`, no generated JSON, `unchecked`,
copy label `Copy`. -/
def initialAppState : AppState :=
  { formState := initialState,
    generatedJson := none,
    validationStatus := ValidationStatus.unchecked,
    copyButtonText := "Copy" }

/-- Lift a form-state update to the app state (a `setFormState` call). -/
def onFormState (f : FormState → FormState) (s : AppState) : AppState :=
  { s with formState := f s.formState }

/-- `handleGenerateJson`: serialize the built object, reset the status. -/
def handleGenerateJson (s : AppState) : AppState × List Effect :=
  ({ s with
      generatedJson := some (generateJsonString s.formState),
      validationStatus := ValidationStatus.unchecked }, [])

/-- `handleReset`: defaults, no generated JSON, `unchecked`. -/
def handleReset (s : AppState) : AppState × List Effect :=
  ({ s with
      formState := initialState,
      generatedJson := none,
      validationStatus := ValidationStatus.unchecked }, [])

/-- `handleCopyJson`: an early return when nothing was generated; otherwise
a clipboard write. The label change in the promise callback is modelled
synchronously and its two-second revert timer is out of scope. -/
def handleCopyJson (s : AppState) : AppState × List Effect :=
  match s.generatedJson with
  | none => (s, [])
  | some g => ({ s with copyButtonText := "Copied!" }, [Effect.clipboardWrite g])

/-- `handleDownloadJson`: an early return when nothing was generated;
otherwise a file download of the generated text under the slugged name (the
transient anchor-element manipulation has no lasting state). -/
def handleDownloadJson (s : AppState) : AppState × List Effect :=
  match s.generatedJson with
  | none => (s, [])
  | some g => (s, [Effect.downloadFile (downloadFileName s.formState.idea) g])

/-- `handleSelfTest`: an early return when nothing was generated; otherwise
set the status the validator computes. -/
def handleSelfTest (s : AppState) : AppState × List Effect :=
  match s.generatedJson with
  | none => (s, [])
  | some g => ({ s with validationStatus := selfTestStatus g }, [])

/-! ## Reachable states -/

/-- One user interaction, as the rendered controls allow it: the text input
writes any string to `idea`; each chip group toggles only its own rendered
items; each select emits only its rendered options; the preset buttons apply
only table presets; the action buttons invoke the five handlers. -/
inductive AppStep : AppState → AppState → Prop
  | ideaInput (s : AppState) (v : String) :
      AppStep s (onFormState (setIdea v) s)
  | toggleMood (s : AppState) (item : String) (h : item ∈ MOODS) :
      AppStep s (onFormState (toggleMultiSelect item MultiField.moods) s)
  | toggleSecondary (s : AppState) (item : String) (h : item ∈ SECONDARY_SOUNDS) :
      AppStep s (onFormState (toggleMultiSelect item MultiField.soundscapeSecondary) s)
  | toggleEffect (s : AppState) (item : String) (h : item ∈ VISUAL_EFFECTS) :
      AppStep s (onFormState (toggleMultiSelect item MultiField.visualEffects) s)
  | selectMovement (s : AppState) (v : String) (h : v ∈ CAMERA_MOVEMENTS) :
      AppStep s (onFormState (setCameraMovement v) s)
  | selectAngle (s : AppState) (v : String) (h : v ∈ CAMERA_ANGLES) :
      AppStep s (onFormState (setCameraAngle v) s)
  | selectFocus (s : AppState) (v : String) (h : v ∈ CAMERA_FOCUS) :
      AppStep s (onFormState (setCameraFocus v) s)
  | selectPrimary (s : AppState) (v : String) (h : v ∈ PRIMARY_SOUNDS) :
      AppStep s (onFormState (setSoundscapePrimary v) s)
  | selectQuality (s : AppState) (v : String) (h : v ∈ SOUND_QUALITIES) :
      AppStep s (onFormState (setSoundscapeQuality v) s)
  | applyPreset (s : AppState) (p : Preset) (h : p ∈ PRESETS) :
      AppStep s (onFormState (handleApplyPreset p) s)
  | generate (s : AppState) : AppStep s (handleGenerateJson s).1
  | reset (s : AppState) : AppStep s (handleReset s).1
  | copy (s : AppState) : AppStep s (handleCopyJson s).1
  | download (s : AppState) : AppStep s (handleDownloadJson s).1
  | selfTest (s : AppState) : AppStep s (handleSelfTest s).1

/-- States reachable from the mount state by user interactions. -/
def Reachable (s : AppState) : Prop :=
  Relation.ReflTransGen AppStep initialAppState s

/-- The data-model invariant: each enumerated field holds a member of its
option list and each multi-valued field is duplicate-free. -/
def FormInv (fs : FormState) : Prop :=
  fs.cameraMovement ∈ CAMERA_MOVEMENTS ∧
  fs.cameraAngle ∈ CAMERA_ANGLES ∧
  fs.cameraFocus ∈ CAMERA_FOCUS ∧
  fs.soundscapePrimary ∈ PRIMARY_SOUNDS ∧
  fs.soundscapeQuality ∈ SOUND_QUALITIES ∧
  fs.moods.Nodup ∧ fs.soundscapeSecondary.Nodup ∧ fs.visualEffects.Nodup

/-! ## Basic lemmas on the multi-select fields -/

theorem getMulti_setMulti (fs : FormState) (field : MultiField) (l : List String) :
    getMulti (setMulti fs field l) field = l := by
  cases field <;> rfl

theorem setMulti_setMulti (fs : FormState) (field : MultiField) (a b : List String) :
    setMulti (setMulti fs field a) field b = setMulti fs field b := by
  cases field <;> rfl

theorem setMulti_getMulti (fs : FormState) (field : MultiField) :
    setMulti fs field (getMulti fs field) = fs := by
  cases field <;> rfl

/-! ## Claim theorems: builder fields, presets, reset, toggling, no-ops -/

/-- C2: for every form state, the built JSON object's `title` is the idea
verbatim, `description` the fixed template around the idea, `style` the
constant `"ASMR"`, `mood` the moods list in order, `camera` an object with
`movement`/`angle`/`focus` copied from the single-valued fields,
`soundscape` an object with `primary`/`secondary`/`quality` (`secondary` an
ordered list) and `visual_effects` the visual-effects list; the builder is a
total function of the form state. -/
theorem builder_fields (fs : FormState) :
    jsGet (buildJsonObject fs) "title" = some (Json.str fs.idea) ∧
    jsGet (buildJsonObject fs) "description"
      = some (Json.str ("An ASMR-style video about: " ++ fs.idea ++ ".")) ∧
    jsGet (buildJsonObject fs) "style" = some (Json.str "ASMR") ∧
    jsGet (buildJsonObject fs) "mood" = some (Json.arr (fs.moods.map Json.str)) ∧
    jsGet (buildJsonObject fs) "camera" = some (Json.obj [
      ("movement", Json.str fs.cameraMovement),
      ("angle", Json.str fs.cameraAngle),
      ("focus", Json.str fs.cameraFocus)]) ∧
    jsGet (buildJsonObject fs) "soundscape" = some (Json.obj [
      ("primary", Json.str fs.soundscapePrimary),
      ("secondary", Json.arr (fs.soundscapeSecondary.map Json.str)),
      ("quality", Json.str fs.soundscapeQuality)]) ∧
    jsGet (buildJsonObject fs) "visual_effects"
      = some (Json.arr (fs.visualEffects.map Json.str)) := by
  refine ⟨?_, ?_, ?_, ?_, ?_, ?_, ?_⟩ <;> rfl

/-- C4: applying a preset from the table overwrites exactly the eight fields
its settings name with the preset's values and keeps the `idea` field (which
no preset names) unchanged. -/
theorem preset_application (fs : FormState) (p : Preset) (_hp : p ∈ PRESETS) :
    (handleApplyPreset p fs).moods = p.settings.moods ∧
    (handleApplyPreset p fs).cameraMovement = p.settings.cameraMovement ∧
    (handleApplyPreset p fs).cameraAngle = p.settings.cameraAngle ∧
    (handleApplyPreset p fs).cameraFocus = p.settings.cameraFocus ∧
    (handleApplyPreset p fs).soundscapePrimary = p.settings.soundscapePrimary ∧
    (handleApplyPreset p fs).soundscapeSecondary = p.settings.soundscapeSecondary ∧
    (handleApplyPreset p fs).soundscapeQuality = p.settings.soundscapeQuality ∧
    (handleApplyPreset p fs).visualEffects = p.settings.visualEffects ∧
    (handleApplyPreset p fs).idea = fs.idea :=
  ⟨rfl, rfl, rfl, rfl, rfl, rfl, rfl, rfl, rfl⟩

/-- Witness for C4 at the first table preset and the initial state. -/
theorem preset_application_witness :
    PRESETS.headI ∈ PRESETS ∧
    (handleApplyPreset PRESETS.headI initialState).idea = initialState.idea := by
  have hp : PRESETS.headI ∈ PRESETS := by decide
  exact ⟨hp, (preset_application initialState PRESETS.headI hp).2.2.2.2.2.2.2.2⟩

/-- C7: reset, from any state, returns the form to the documented defaults
(empty idea, empty multi-valued lists, first option of each enumerated
list), clears the generated JSON and sets the status to `unchecked`. -/
theorem reset_behavior (s : AppState) :
    (handleReset s).1.formState = initialState ∧
    (handleReset s).1.generatedJson = none ∧
    (handleReset s).1.validationStatus = ValidationStatus.unchecked ∧
    initialState.idea = "" ∧
    initialState.moods = [] ∧
    initialState.soundscapeSecondary = [] ∧
    initialState.visualEffects = [] ∧
    CAMERA_MOVEMENTS.head? = some initialState.cameraMovement ∧
    CAMERA_ANGLES.head? = some initialState.cameraAngle ∧
    CAMERA_FOCUS.head? = some initialState.cameraFocus ∧
    PRIMARY_SOUNDS.head? = some initialState.soundscapePrimary ∧
    SOUND_QUALITIES.head? = some initialState.soundscapeQuality :=
  ⟨rfl, rfl, rfl, rfl, rfl, rfl, rfl, rfl, rfl, rfl, rfl, rfl⟩

/-- C9: toggling an unselected item appends it at the end of the field's
list; toggling a selected item removes every occurrence of it, preserving
the relative order of the remaining items (a filter of the list). -/
theorem toggle_single (fs : FormState) (field : MultiField) (item : String) :
    (item ∉ getMulti fs field →
      getMulti (toggleMultiSelect item field fs) field = getMulti fs field ++ [item]) ∧
    (item ∈ getMulti fs field →
      getMulti (toggleMultiSelect item field fs) field
        = (getMulti fs field).filter (fun i => i != item)) := by
  simp only [toggleMultiSelect]
  constructor
  · intro h
    rw [if_neg (by simpa using h), getMulti_setMulti]
  · intro h
    rw [if_pos (by simpa using h), getMulti_setMulti]

/-- Witness for C9: both branches at concrete states. -/
theorem toggle_single_witness :
    ("Calm" ∉ getMulti initialState MultiField.moods ∧
      getMulti (toggleMultiSelect "Calm" MultiField.moods initialState) MultiField.moods
        = getMulti initialState MultiField.moods ++ ["Calm"]) ∧
    ("Fog" ∈ getMulti { initialState with visualEffects := ["Fog", "Soft Glow"] }
        MultiField.visualEffects ∧
      getMulti (toggleMultiSelect "Fog" MultiField.visualEffects
          { initialState with visualEffects := ["Fog", "Soft Glow"] }) MultiField.visualEffects
        = (getMulti { initialState with visualEffects := ["Fog", "Soft Glow"] }
            MultiField.visualEffects).filter (fun i => i != "Fog")) := by
  constructor
  · exact ⟨by decide, (toggle_single initialState MultiField.moods "Calm").1 (by decide)⟩
  · exact ⟨by decide,
      (toggle_single { initialState with visualEffects := ["Fog", "Soft Glow"] }
        MultiField.visualEffects "Fog").2 (by decide)⟩

/-- C5 counterexample: with moods `["Calm", "Cozy"]`, toggling `"Calm"`
twice yields moods `["Cozy", "Calm"]` — the same members, but not the prior
list: the re-added item lands at the end. -/
theorem toggle_twice_counterexample :
    toggleMultiSelect "Calm" MultiField.moods
        (toggleMultiSelect "Calm" MultiField.moods
          { initialState with moods := ["Calm", "Cozy"] })
      ≠ { initialState with moods := ["Calm", "Cozy"] } := by
  decide

/-- C5 amended: toggling an item twice returns the field to a list with
exactly the prior membership, and when the item was not previously selected
the whole form state is restored exactly (when it was selected, the item is
re-appended at the end, so only the order may differ). -/
theorem toggle_twice_amended (fs : FormState) (field : MultiField) (item : String) :
    (∀ x, x ∈ getMulti (toggleMultiSelect item field (toggleMultiSelect item field fs)) field ↔
        x ∈ getMulti fs field) ∧
    (item ∉ getMulti fs field →
      toggleMultiSelect item field (toggleMultiSelect item field fs) = fs) := by
  by_cases h : item ∈ getMulti fs field
  · have h1 : toggleMultiSelect item field fs
        = setMulti fs field ((getMulti fs field).filter (fun i => i != item)) := by
      simp only [toggleMultiSelect]
      rw [if_pos (by simpa using h)]
    have h2 : toggleMultiSelect item field (toggleMultiSelect item field fs)
        = setMulti fs field ((getMulti fs field).filter (fun i => i != item) ++ [item]) := by
      rw [h1]
      simp only [toggleMultiSelect, getMulti_setMulti, setMulti_setMulti]
      rw [if_neg (by simp [List.mem_filter])]
    refine ⟨?_, fun hni => absurd h hni⟩
    intro x
    rw [h2, getMulti_setMulti]
    simp only [List.mem_append, List.mem_filter, List.mem_singleton]
    constructor
    · rintro (⟨hx, _⟩ | rfl)
      · exact hx
      · exact h
    · intro hx
      by_cases hxi : x = item
      · exact Or.inr hxi
      · exact Or.inl ⟨hx, by simpa using hxi⟩
  · have h1 : toggleMultiSelect item field fs
        = setMulti fs field (getMulti fs field ++ [item]) := by
      simp only [toggleMultiSelect]
      rw [if_neg (by simpa using h)]
    have hfilter : ((getMulti fs field) ++ [item]).filter (fun i => i != item)
        = getMulti fs field := by
      rw [List.filter_append]
      have hl : (getMulti fs field).filter (fun i => i != item) = getMulti fs field :=
        List.filter_eq_self.2 (fun a ha => by
          simp only [bne_iff_ne, ne_eq]
          exact fun hai => h (hai ▸ ha))
      have hr : ([item] : List String).filter (fun i => i != item) = [] := by simp
      rw [hl, hr, List.append_nil]
    have h2 : toggleMultiSelect item field (toggleMultiSelect item field fs) = fs := by
      rw [h1]
      simp only [toggleMultiSelect, getMulti_setMulti, setMulti_setMulti]
      rw [if_pos (by simp), hfilter, setMulti_getMulti]
    rw [h2]
    exact ⟨fun x => Iff.rfl, fun _ => rfl⟩

/-- Witness for C5 amended: toggling `"Calm"` twice on empty moods restores
the state. -/
theorem toggle_twice_amended_witness :
    ("Calm" ∉ getMulti initialState MultiField.moods) ∧
    toggleMultiSelect "Calm" MultiField.moods
        (toggleMultiSelect "Calm" MultiField.moods initialState) = initialState :=
  ⟨by decide, (toggle_twice_amended initialState MultiField.moods "Calm").2 (by decide)⟩

/-- C10: with no generated JSON, copy, download and self-test are no-ops:
no state change and no side effect (in particular the validation status is
untouched). -/
theorem no_generated_json_noop (s : AppState) (h : s.generatedJson = none) :
    handleCopyJson s = (s, []) ∧
    handleDownloadJson s = (s, []) ∧
    handleSelfTest s = (s, []) := by
  unfold handleCopyJson handleDownloadJson handleSelfTest
  rw [h]
  exact ⟨rfl, rfl, rfl⟩

/-- Witness for C10 at the mount state. -/
theorem no_generated_json_noop_witness :
    initialAppState.generatedJson = none ∧
    (handleCopyJson initialAppState = (initialAppState, []) ∧
     handleDownloadJson initialAppState = (initialAppState, []) ∧
     handleSelfTest initialAppState = (initialAppState, [])) :=
  ⟨rfl, no_generated_json_noop initialAppState rfl⟩

/-! ## The reachability invariant (C6) -/

theorem toggle_preserves_nodup (l : List String) (item : String) (h : l.Nodup) :
    (if l.contains item then l.filter (fun i => i != item) else l ++ [item]).Nodup := by
  by_cases hc : l.contains item
  · rw [if_pos hc]
    exact h.filter _
  · rw [if_neg hc]
    have hni : item ∉ l := by simpa using hc
    rw [List.nodup_append]
    exact ⟨h, List.nodup_singleton item, by simpa [List.disjoint_right] using hni⟩

theorem formInv_toggle (fs : FormState) (field : MultiField) (item : String)
    (h : FormInv fs) : FormInv (toggleMultiSelect item field fs) := by
  obtain ⟨h1, h2, h3, h4, h5, h6, h7, h8⟩ := h
  cases field
  · exact ⟨h1, h2, h3, h4, h5, toggle_preserves_nodup _ _ h6, h7, h8⟩
  · exact ⟨h1, h2, h3, h4, h5, h6, toggle_preserves_nodup _ _ h7, h8⟩
  · exact ⟨h1, h2, h3, h4, h5, h6, h7, toggle_preserves_nodup _ _ h8⟩

theorem presetInv (p : Preset) (hp : p ∈ PRESETS) :
    p.settings.cameraMovement ∈ CAMERA_MOVEMENTS ∧
    p.settings.cameraAngle ∈ CAMERA_ANGLES ∧
    p.settings.cameraFocus ∈ CAMERA_FOCUS ∧
    p.settings.soundscapePrimary ∈ PRIMARY_SOUNDS ∧
    p.settings.soundscapeQuality ∈ SOUND_QUALITIES ∧
    p.settings.moods.Nodup ∧
    p.settings.soundscapeSecondary.Nodup ∧
    p.settings.visualEffects.Nodup := by
  fin_cases hp <;> exact (by decide)

theorem formInv_initial : FormInv initialState := by
  refine ⟨by decide, by decide, by decide, by decide, by decide, ?_, ?_, ?_⟩ <;>
    exact List.nodup_nil

/-- C6: in every app state reachable from the mount state by control
interactions, preset applications, handler invocations and resets, each
enumerated single-valued field holds a member of its fixed option list and
each multi-valued field is duplicate-free. -/
theorem reachable_formInv (s : AppState) (h : Reachable s) : FormInv s.formState := by
  induction h with
  | refl => exact formInv_initial
  | tail hab hbc ih =>
    cases hbc with
    | ideaInput v => exact ih
    | toggleMood item h => exact formInv_toggle _ _ _ ih
    | toggleSecondary item h => exact formInv_toggle _ _ _ ih
    | toggleEffect item h => exact formInv_toggle _ _ _ ih
    | selectMovement v h =>
      obtain ⟨_, i2, i3, i4, i5, i6, i7, i8⟩ := ih
      exact ⟨h, i2, i3, i4, i5, i6, i7, i8⟩
    | selectAngle v h =>
      obtain ⟨i1, _, i3, i4, i5, i6, i7, i8⟩ := ih
      exact ⟨i1, h, i3, i4, i5, i6, i7, i8⟩
    | selectFocus v h =>
      obtain ⟨i1, i2, _, i4, i5, i6, i7, i8⟩ := ih
      exact ⟨i1, i2, h, i4, i5, i6, i7, i8⟩
    | selectPrimary v h =>
      obtain ⟨i1, i2, i3, _, i5, i6, i7, i8⟩ := ih
      exact ⟨i1, i2, i3, h, i5, i6, i7, i8⟩
    | selectQuality v h =>
      obtain ⟨i1, i2, i3, i4, _, i6, i7, i8⟩ := ih
      exact ⟨i1, i2, i3, i4, h, i6, i7, i8⟩
    | applyPreset p hp =>
      obtain ⟨p1, p2, p3, p4, p5, p6, p7, p8⟩ := presetInv p hp
      exact ⟨p1, p2, p3, p4, p5, p6, p7, p8⟩
    | generate => exact ih
    | reset => exact formInv_initial
    | copy =>
      dsimp only [handleCopyJson]
      split
      · exact ih
      · exact ih
    | download =>
      dsimp only [handleDownloadJson]
      split
      · exact ih
      · exact ih
    | selfTest =>
      dsimp only [handleSelfTest]
      split
      · exact ih
      · exact ih

/-- Witness for C6: the state after applying the first preset is reachable
and satisfies the invariant. -/
theorem reachable_formInv_witness :
    Reachable (onFormState (handleApplyPreset PRESETS.headI) initialAppState) ∧
    FormInv (onFormState (handleApplyPreset PRESETS.headI) initialAppState).formState := by
  have hr : Reachable (onFormState (handleApplyPreset PRESETS.headI) initialAppState) :=
    Relation.ReflTransGen.single
      (AppStep.applyPreset initialAppState PRESETS.headI (by decide))
  exact ⟨hr, reachable_formInv _ hr⟩

/-! ## The download filename (C8) -/

theorem toNat_ofNat_small (n : Nat) (h : n < 55296) : (Char.ofNat n).toNat = n := by
  rw [Char.ofNat, dif_pos (Or.inl h)]
  rfl

theorem isRegexWs_eq_decide (c : Char) :
    isRegexWs c = decide (c.toNat ∈ regexWsCodes) := by
  simp [isRegexWs]

theorem isRegexWs_toLower (c : Char) : isRegexWs (Char.toLower c) = isRegexWs c := by
  rw [isRegexWs_eq_decide, isRegexWs_eq_decide]
  simp only [Char.toLower]
  split
  · rename_i h
    rw [toNat_ofNat_small _ (by omega)]
    have h1 : ¬ (c.toNat + 32 ∈ regexWsCodes) := by
      simp only [regexWsCodes, List.mem_cons, List.not_mem_nil, or_false]
      omega
    have h2 : ¬ (c.toNat ∈ regexWsCodes) := by
      simp only [regexWsCodes, List.mem_cons, List.not_mem_nil, or_false]
      omega
    simp [h1, h2]
  · rfl

theorem dropLeadWs_map_toLower (cs : List Char) :
    dropLeadWs (cs.map Char.toLower) = (dropLeadWs cs).map Char.toLower := by
  induction cs with
  | nil => rfl
  | cons c cs ih =>
    simp only [List.map_cons, dropLeadWs, isRegexWs_toLower]
    by_cases h : isRegexWs c
    · rw [if_pos h, if_pos h]
      exact ih
    · rw [if_neg h, if_neg h]
      rfl

theorem jsTrimList_map_toLower (cs : List Char) :
    jsTrimList (cs.map Char.toLower) = (jsTrimList cs).map Char.toLower := by
  unfold jsTrimList
  rw [dropLeadWs_map_toLower, ← List.map_reverse, dropLeadWs_map_toLower, ← List.map_reverse]

theorem collapseWs_ne_nil (c : Char) (cs : List Char) : collapseWs (c :: cs) ≠ [] := by
  unfold collapseWs
  simp only [collapseWsGo]
  by_cases h : isRegexWs c
  · rw [if_pos h]
    simp
  · rw [if_neg h]
    simp

/-- C8: for every idea string, the filename `handleDownloadJson` uses equals
the spec's description — the idea lowercased with its (internal, after
trimming) whitespace runs collapsed to single underscores plus `".json"`,
and `"prompt.json"` when the idea trims to empty. -/
theorem download_filename_spec (idea : String) :
    downloadFileName idea = specFileName idea := by
  unfold downloadFileName specFileName
  by_cases h : jsTrimList idea.data = []
  · rw [if_pos h]
    have hslug : collapseWs (toLowerList (jsTrimList idea.data)) = [] := by
      rw [h]
      rfl
    rw [hslug]
    decide
  · rw [if_neg h]
    obtain ⟨c, cs, hcc⟩ : ∃ c cs, jsTrimList idea.data = c :: cs := by
      cases hx : jsTrimList idea.data with
      | nil => exact absurd hx h
      | cons c cs => exact ⟨c, cs, rfl⟩
    have hne : collapseWs (toLowerList (jsTrimList idea.data)) ≠ [] := by
      rw [hcc]
      exact collapseWs_ne_nil _ _
    rw [if_neg (by simpa [List.isEmpty_iff] using hne)]
    have hmap : jsTrimList (toLowerList idea.data) = toLowerList (jsTrimList idea.data) := by
      unfold toLowerList
      rw [jsTrimList_map_toLower]
    rw [hmap]

/-! ## Whitespace and parser-unfolding lemmas -/

theorem skipWs_of_ws (ws cs : List Char) (h : ∀ c ∈ ws, isWsChar c = true) :
    skipWs (ws ++ cs) = skipWs cs := by
  induction ws with
  | nil => rfl
  | cons c ws ih =>
    rw [List.cons_append]
    show (if isWsChar c then skipWs (ws ++ cs) else c :: (ws ++ cs)) = skipWs cs
    rw [if_pos (h c (List.mem_cons_self c ws)), ih]
    intro x hx
    exact h x (List.mem_cons_of_mem c hx)

theorem skipWs_not_ws (c : Char) (cs : List Char) (h : isWsChar c = false) :
    skipWs (c :: cs) = c :: cs := by
  show (if isWsChar c then skipWs cs else c :: cs) = c :: cs
  rw [h]
  rfl

theorem spaces_ws (n : Nat) : ∀ c ∈ spaces n, isWsChar c = true := by
  intro c hc
  rw [spaces] at hc
  rw [List.eq_of_mem_replicate hc]
  rfl

theorem nl_spaces_ws (n : Nat) : ∀ c ∈ '\n' :: spaces n, isWsChar c = true := by
  intro c hc
  rcases List.mem_cons.1 hc with h | h
  · rw [h]; rfl
  · exact spaces_ws n c h

theorem parseV_succ_quote (fuel : Nat) (cs : List Char) :
    parseV (fuel + 1) ('\"' :: cs)
      = match parseStringBody cs with
        | none => none
        | some (s, r1) => some (Json.str (String.mk s), r1) := rfl

theorem parseV_succ_lbracket (fuel : Nat) (cs : List Char) :
    parseV (fuel + 1) ('[' :: cs)
      = if (skipWs cs).head? = some ']' then some (Json.arr [], (skipWs cs).tail)
        else parseArrItems fuel cs [] := rfl

theorem parseV_succ_lbrace (fuel : Nat) (cs : List Char) :
    parseV (fuel + 1) (Char.ofNat 123 :: cs)
      = if (skipWs cs).head? = some (Char.ofNat 125) then some (Json.obj [], (skipWs cs).tail)
        else parseObjItems fuel cs [] := rfl

theorem parseV_ws (fuel : Nat) (ws cs : List Char) (h : ∀ c ∈ ws, isWsChar c = true) :
    parseV fuel (ws ++ cs) = parseV fuel cs := by
  cases fuel with
  | zero => rfl
  | succ fuel =>
    show (match skipWs (ws ++ cs) with
      | [] => none
      | c :: r =>
        if c = 'n' then expectLit ['u', 'l', 'l'] r Json.null
        else if c = 't' then expectLit ['r', 'u', 'e'] r (Json.bool true)
        else if c = 'f' then expectLit ['a', 'l', 's', 'e'] r (Json.bool false)
        else if c = '\"' then
          match parseStringBody r with
          | none => none
          | some (s, r1) => some (Json.str (String.mk s), r1)
        else if c = '[' then
          if (skipWs r).head? = some ']' then some (Json.arr [], (skipWs r).tail)
          else parseArrItems fuel r []
        else if c = Char.ofNat 123 then
          if (skipWs r).head? = some (Char.ofNat 125) then some (Json.obj [], (skipWs r).tail)
          else parseObjItems fuel r []
        else if c = '-' ∨ c.isDigit then parseNumber (c :: r)
        else none) = parseV (fuel + 1) cs
    rw [skipWs_of_ws ws cs h]
    rfl

/-! ## String escape roundtrip -/

theorem escapeL_cons (c : Char) (cs : List Char) :
    escapeL (c :: cs) = escapeChar c ++ escapeL cs := by
  simp [escapeL]

theorem hexVal_hexDigit (m : Nat) (hm : m < 16) : hexVal (hexDigit m) = some m := by
  interval_cases m <;> decide

theorem parseStringBody_escape (s : List Char) (rest : List Char) :
    parseStringBody (escapeL s ++ '\"' :: rest) = some (s, rest) := by
  induction s with
  | nil =>
    rw [show escapeL [] = [] from rfl, List.nil_append, parseStringBody.eq_def]
    simp
  | cons c s ih =>
    rw [escapeL_cons, List.append_assoc]
    by_cases h1 : c = '\"'
    · subst h1
      rw [show escapeChar '\"' = ['\\', '\"'] from by decide, parseStringBody.eq_def]
      simp [consStr, ih]
    · by_cases h2 : c = '\\'
      · subst h2
        rw [show escapeChar '\\' = ['\\', '\\'] from by decide, parseStringBody.eq_def]
        simp [consStr, ih]
      · by_cases h3 : c.toNat = 8
        · have hc : c = Char.ofNat 8 := by rw [← h3, Char.ofNat_toNat]
          subst hc
          rw [show escapeChar (Char.ofNat 8) = ['\\', 'b'] from by decide, parseStringBody.eq_def]
          simp [consStr, ih]
        · by_cases h4 : c.toNat = 9
          · have hc : c = '\t' := by rw [← Char.ofNat_toNat c, h4]
            subst hc
            rw [show escapeChar '\t' = ['\\', 't'] from by decide, parseStringBody.eq_def]
            simp [consStr, ih]
          · by_cases h5 : c.toNat = 10
            · have hc : c = '\n' := by rw [← Char.ofNat_toNat c, h5]
              subst hc
              rw [show escapeChar '\n' = ['\\', 'n'] from by decide, parseStringBody.eq_def]
              simp [consStr, ih]
            · by_cases h6 : c.toNat = 12
              · have hc : c = Char.ofNat 12 := by rw [← h6, Char.ofNat_toNat]
                subst hc
                rw [show escapeChar (Char.ofNat 12) = ['\\', 'f'] from by decide,
                  parseStringBody.eq_def]
                simp [consStr, ih]
              · by_cases h7 : c.toNat = 13
                · have hc : c = '\x0d' := by rw [← Char.ofNat_toNat c, h7]
                  subst hc
                  rw [show escapeChar '\x0d' = ['\\', 'r'] from by decide, parseStringBody.eq_def]
                  simp [consStr, ih]
                · by_cases h8 : c.toNat < 32
                  · have hesc : escapeChar c
                        = ['\\', 'u', '0', '0', hexDigit (c.toNat / 16), hexDigit (c.toNat % 16)] := by
                      simp only [escapeChar, if_neg h1, if_neg h2, if_neg h3, if_neg h4, if_neg h5,
                        if_neg h6, if_neg h7, if_pos h8]
                    have h0 : hexVal '0' = some 0 := by decide
                    have hd1 : hexVal (hexDigit (c.toNat / 16)) = some (c.toNat / 16) :=
                      hexVal_hexDigit _ (by omega)
                    have hd2 : hexVal (hexDigit (c.toNat % 16)) = some (c.toNat % 16) :=
                      hexVal_hexDigit _ (by omega)
                    have harith : c.toNat / 16 * 16 + c.toNat % 16 = c.toNat := by omega
                    rw [hesc, parseStringBody.eq_def]
                    simp [h0, hd1, hd2, consStr, ih, harith, Char.ofNat_toNat]
                  · have hesc : escapeChar c = [c] := by
                      simp only [escapeChar, if_neg h1, if_neg h2, if_neg h3, if_neg h4, if_neg h5,
                        if_neg h6, if_neg h7, if_neg h8]
                    rw [hesc, parseStringBody.eq_def]
                    simp [h1, h2, h8, consStr, ih]

/-! ## Size, well-formedness and head-shape lemmas -/

theorem sizeL_cons (x : Json) (xs : List Json) :
    sizeL (x :: xs) = sizeJ x + 1 + sizeL xs := by
  simp [sizeL]

theorem sizeM_cons (k : String) (v : Json) (kvs : List (String × Json)) :
    sizeM ((k, v) :: kvs) = sizeJ v + 1 + sizeM kvs := by
  simp [sizeM]

theorem sizeJ_arr (xs : List Json) : sizeJ (Json.arr xs) = 1 + sizeL xs := by
  simp [sizeJ]

theorem sizeJ_obj (kvs : List (String × Json)) : sizeJ (Json.obj kvs) = 1 + sizeM kvs := by
  simp [sizeJ]

theorem sizeJ_pos (j : Json) : 1 ≤ sizeJ j := by
  cases j <;> simp [sizeJ]

theorem wfL_cons_iff (x : Json) (xs : List Json) :
    wfL (x :: xs) = true ↔ wfJ x = true ∧ wfL xs = true := by
  simp [wfL]

theorem wfM_cons_iff (k : String) (v : Json) (kvs : List (String × Json)) :
    wfM ((k, v) :: kvs) = true ↔ wfJ v = true ∧ wfM kvs = true := by
  simp [wfM]

theorem wfJ_arr_iff (xs : List Json) : wfJ (Json.arr xs) = true ↔ wfL xs = true := by
  simp [wfJ]

theorem wfJ_obj_iff (kvs : List (String × Json)) :
    wfJ (Json.obj kvs) = true ↔ keysDistinct kvs = true ∧ wfM kvs = true := by
  simp [wfJ]

theorem keysDistinct_cons_iff (k : String) (v : Json) (kvs : List (String × Json)) :
    keysDistinct ((k, v) :: kvs) = true
      ↔ (∀ p ∈ kvs, (p : String × Json).1 ≠ k) ∧ keysDistinct kvs = true := by
  simp [keysDistinct, List.any_eq_true]

theorem objInsert_fresh (acc : List (String × Json)) (k : String) (v : Json)
    (h : ∀ q ∈ acc, (q : String × Json).1 ≠ k) : objInsert acc k v = acc ++ [(k, v)] := by
  unfold objInsert
  rw [if_neg]
  simp only [List.any_eq_true, not_exists, not_and]
  intro q hq
  simpa using h q hq

theorem prettyV_head (j : Json) (ind : Nat) (hw : wfJ j = true) :
    ∃ c cs, prettyV j ind = c :: cs ∧ isWsChar c = false ∧ c ≠ ']' ∧ c ≠ Char.ofNat 125 := by
  cases j with
  | null => exact ⟨'n', ['u', 'l', 'l'], by simp [prettyV], by decide, by decide, by decide⟩
  | bool b =>
    cases b with
    | true => exact ⟨'t', ['r', 'u', 'e'], by simp [prettyV], by decide, by decide, by decide⟩
    | false => exact ⟨'f', ['a', 'l', 's', 'e'], by simp [prettyV], by decide, by decide, by decide⟩
  | num lexeme => simp [wfJ] at hw
  | str s =>
    exact ⟨'\"', escapeL s.data ++ ['\"'], by simp [prettyV], by decide, by decide, by decide⟩
  | arr elems =>
    cases elems with
    | nil => exact ⟨'[', [']'], by simp [prettyV], by decide, by decide, by decide⟩
    | cons x xs =>
      exact ⟨'[', '\n' :: (spaces (ind + 2) ++ prettyV x (ind + 2) ++ prettyArrTail xs (ind + 2)
        ++ '\n' :: (spaces ind ++ [']'])), by simp [prettyV], by decide, by decide, by decide⟩
  | obj fields =>
    cases fields with
    | nil =>
      exact ⟨Char.ofNat 123, [Char.ofNat 125], by simp [prettyV], by decide, by decide, by decide⟩
    | cons kv kvs =>
      exact ⟨Char.ofNat 123, '\n' :: (spaces (ind + 2) ++ prettyMember kv (ind + 2)
        ++ prettyObjTail kvs (ind + 2) ++ '\n' :: (spaces ind ++ [Char.ofNat 125])),
        by simp [prettyV], by decide, by decide, by decide⟩

theorem parseArrItems_succ (fuel : Nat) (cs : List Char) (acc : List Json) :
    parseArrItems (fuel + 1) cs acc
      = match parseV fuel cs with
        | none => none
        | some (v, r) =>
          match skipWs r with
          | c :: r' =>
            if c = ',' then parseArrItems fuel r' (acc ++ [v])
            else if c = ']' then some (Json.arr (acc ++ [v]), r')
            else none
          | [] => none := rfl

theorem parseObjItems_succ (fuel : Nat) (cs : List Char) (acc : List (String × Json)) :
    parseObjItems (fuel + 1) cs acc
      = match skipWs cs with
        | c0 :: r =>
          if c0 = '\"' then
            match parseStringBody r with
            | none => none
            | some (k, r1) =>
              match skipWs r1 with
              | c1 :: r2 =>
                if c1 = ':' then
                  match parseV fuel r2 with
                  | none => none
                  | some (v, r3) =>
                    match skipWs r3 with
                    | c2 :: r4 =>
                      if c2 = ',' then parseObjItems fuel r4 (objInsert acc (String.mk k) v)
                      else if c2 = Char.ofNat 125 then
                        some (Json.obj (objInsert acc (String.mk k) v), r4)
                      else none
                    | [] => none
                else none
              | [] => none
          else none
        | [] => none := rfl

/-! ## The serialize/parse roundtrip -/

theorem parse_pretty_all : ∀ fuel : Nat,
    (∀ j ind rest, wfJ j = true → sizeJ j ≤ fuel →
      parseV fuel (prettyV j ind ++ rest) = some (j, rest)) ∧
    (∀ x xs acc ws ind2 ind rest,
      (∀ c ∈ ws, isWsChar c = true) → wfJ x = true → wfL xs = true →
      sizeL (x :: xs) ≤ fuel →
      parseArrItems fuel
          (ws ++ (prettyV x ind2 ++ (prettyArrTail xs ind2 ++ '\n' :: (spaces ind ++ ']' :: rest))))
          acc
        = some (Json.arr (acc ++ x :: xs), rest)) ∧
    (∀ k v kvs acc ws ind2 ind rest,
      (∀ c ∈ ws, isWsChar c = true) → wfJ v = true → wfM kvs = true →
      keysDistinct ((k, v) :: kvs) = true →
      (∀ q ∈ acc, ∀ p ∈ (k, v) :: kvs, (q : String × Json).1 ≠ (p : String × Json).1) →
      sizeM ((k, v) :: kvs) ≤ fuel →
      parseObjItems fuel
          (ws ++ (prettyMember (k, v) ind2 ++ (prettyObjTail kvs ind2
            ++ '\n' :: (spaces ind ++ Char.ofNat 125 :: rest))))
          acc
        = some (Json.obj (acc ++ (k, v) :: kvs), rest)) := by
  intro fuel
  induction fuel with
  | zero =>
    refine ⟨?_, ?_, ?_⟩
    · intro j ind rest hw hf
      have h1 := sizeJ_pos j
      omega
    · intro x xs acc ws ind2 ind rest hws hwx hwxs hsz
      rw [sizeL_cons] at hsz
      omega
    · intro k v kvs acc ws ind2 ind rest hws hwv hwkvs hkd hdisj hsz
      rw [sizeM_cons] at hsz
      omega
  | succ fuel ih =>
    obtain ⟨IHv, IHa, IHo⟩ := ih
    refine ⟨?_, ?_, ?_⟩
    · intro j ind rest hw hf
      cases j with
      | null =>
        rw [show prettyV Json.null ind = ['n', 'u', 'l', 'l'] from by simp [prettyV]]
        rfl
      | bool b =>
        cases b with
        | true =>
          rw [show prettyV (Json.bool true) ind = ['t', 'r', 'u', 'e'] from by simp [prettyV]]
          rfl
        | false =>
          rw [show prettyV (Json.bool false) ind = ['f', 'a', 'l', 's', 'e'] from by
            simp [prettyV]]
          rfl
      | num lexeme => simp [wfJ] at hw
      | str s =>
        rw [show prettyV (Json.str s) ind ++ rest
            = '\"' :: (escapeL s.data ++ '\"' :: rest) from by simp [prettyV]]
        rw [parseV_succ_quote, parseStringBody_escape]
      | arr elems =>
        cases elems with
        | nil =>
          rw [show prettyV (Json.arr []) ind ++ rest = '[' :: ']' :: rest from by simp [prettyV]]
          rw [parseV_succ_lbracket, skipWs_not_ws ']' rest (by decide)]
          simp
        | cons x xs =>
          obtain ⟨hwx, hwxs⟩ := (wfL_cons_iff x xs).1 ((wfJ_arr_iff (x :: xs)).1 hw)
          rw [sizeJ_arr] at hf
          obtain ⟨c, cs0, hpc, hcw, hcbr, hcbrc⟩ := prettyV_head x (ind + 2) hwx
          rw [show prettyV (Json.arr (x :: xs)) ind ++ rest
              = '[' :: (('\n' :: spaces (ind + 2)) ++ (prettyV x (ind + 2)
                ++ (prettyArrTail xs (ind + 2) ++ '\n' :: (spaces ind ++ ']' :: rest))))
              from by simp [prettyV]]
          rw [parseV_succ_lbracket]
          have hskc : skipWs (prettyV x (ind + 2) ++ (prettyArrTail xs (ind + 2)
              ++ '\n' :: (spaces ind ++ ']' :: rest)))
              = c :: (cs0 ++ (prettyArrTail xs (ind + 2) ++ '\n' :: (spaces ind ++ ']' :: rest))) := by
            rw [hpc, List.cons_append]
            exact skipWs_not_ws c _ hcw
          rw [skipWs_of_ws _ _ (nl_spaces_ws (ind + 2)), hskc]
          rw [if_neg (by simp [hcbr])]
          have happ := IHa x xs [] ('\n' :: spaces (ind + 2)) (ind + 2) ind rest
            (nl_spaces_ws (ind + 2)) hwx hwxs (by omega)
          rw [List.nil_append] at happ
          exact happ
      | obj fields =>
        cases fields with
        | nil =>
          rw [show prettyV (Json.obj []) ind ++ rest
            = Char.ofNat 123 :: Char.ofNat 125 :: rest from by simp [prettyV]]
          rw [parseV_succ_lbrace, skipWs_not_ws _ _ (by decide)]
          simp
        | cons kv kvs =>
          obtain ⟨k, v⟩ := kv
          obtain ⟨hkd, hwm⟩ := (wfJ_obj_iff ((k, v) :: kvs)).1 hw
          obtain ⟨hwv, hwkvs⟩ := (wfM_cons_iff k v kvs).1 hwm
          rw [sizeJ_obj] at hf
          rw [show prettyV (Json.obj ((k, v) :: kvs)) ind ++ rest
              = Char.ofNat 123 :: (('\n' :: spaces (ind + 2)) ++ (prettyMember (k, v) (ind + 2)
                ++ (prettyObjTail kvs (ind + 2) ++ '\n' :: (spaces ind ++ Char.ofNat 125 :: rest))))
              from by simp [prettyV]]
          rw [parseV_succ_lbrace]
          have hskc : skipWs (prettyMember (k, v) (ind + 2) ++ (prettyObjTail kvs (ind + 2)
              ++ '\n' :: (spaces ind ++ Char.ofNat 125 :: rest)))
              = '\"' :: (escapeL k.data ++ '\"' :: ':' :: ' ' :: (prettyV v (ind + 2)
                ++ (prettyObjTail kvs (ind + 2) ++ '\n' :: (spaces ind ++ Char.ofNat 125 :: rest)))) := by
            rw [show prettyMember (k, v) (ind + 2) ++ (prettyObjTail kvs (ind + 2)
              ++ '\n' :: (spaces ind ++ Char.ofNat 125 :: rest))
              = '\"' :: (escapeL k.data ++ '\"' :: ':' :: ' ' :: (prettyV v (ind + 2)
                ++ (prettyObjTail kvs (ind + 2) ++ '\n' :: (spaces ind ++ Char.ofNat 125 :: rest))))
              from by simp [prettyMember]]
            exact skipWs_not_ws _ _ (by decide)
          rw [skipWs_of_ws _ _ (nl_spaces_ws (ind + 2)), hskc]
          rw [if_neg (by simp)]
          have happ := IHo k v kvs [] ('\n' :: spaces (ind + 2)) (ind + 2) ind rest
            (nl_spaces_ws (ind + 2)) hwv hwkvs hkd (fun q hq => absurd hq (List.not_mem_nil q))
            (by omega)
          rw [List.nil_append] at happ
          exact happ
    · intro x xs acc ws ind2 ind rest hws hwx hwxs hsz
      rw [sizeL_cons] at hsz
      have hv : parseV fuel (ws ++ (prettyV x ind2 ++ (prettyArrTail xs ind2
          ++ '\n' :: (spaces ind ++ ']' :: rest))))
          = some (x, prettyArrTail xs ind2 ++ '\n' :: (spaces ind ++ ']' :: rest)) := by
        rw [parseV_ws fuel ws _ hws]
        exact IHv x ind2 _ hwx (by omega)
      rw [parseArrItems_succ, hv]
      dsimp only
      cases xs with
      | nil =>
        rw [show prettyArrTail ([] : List Json) ind2 = [] from by simp [prettyArrTail],
          List.nil_append]
        rw [show ('\n' :: (spaces ind ++ ']' :: rest)) = ('\n' :: spaces ind) ++ (']' :: rest)
          from rfl]
        rw [skipWs_of_ws _ _ (nl_spaces_ws ind), skipWs_not_ws ']' rest (by decide)]
        dsimp only
        rw [if_neg (by decide), if_pos rfl]
      | cons y ys =>
        obtain ⟨hwy, hwys⟩ := (wfL_cons_iff y ys).1 hwxs
        have htail : prettyArrTail (y :: ys) ind2 ++ '\n' :: (spaces ind ++ ']' :: rest)
            = ',' :: (('\n' :: spaces ind2) ++ (prettyV y ind2 ++ (prettyArrTail ys ind2
              ++ '\n' :: (spaces ind ++ ']' :: rest)))) := by
          simp [prettyArrTail]
        rw [htail, skipWs_not_ws ',' _ (by decide)]
        dsimp only
        rw [if_pos rfl]
        rw [sizeL_cons] at hsz
        have happ := IHa y ys (acc ++ [x]) ('\n' :: spaces ind2) ind2 ind rest
          (nl_spaces_ws ind2) hwy hwys (by rw [sizeL_cons]; omega)
        rw [show (acc ++ [x]) ++ y :: ys = acc ++ x :: y :: ys from by simp] at happ
        exact happ
    · intro k v kvs acc ws ind2 ind rest hws hwv hwkvs hkd hdisj hsz
      rw [sizeM_cons] at hsz
      rw [parseObjItems_succ]
      have hmem : prettyMember (k, v) ind2 ++ (prettyObjTail kvs ind2
          ++ '\n' :: (spaces ind ++ Char.ofNat 125 :: rest))
          = '\"' :: (escapeL k.data ++ '\"' :: ':' :: ' ' :: (prettyV v ind2
            ++ (prettyObjTail kvs ind2 ++ '\n' :: (spaces ind ++ Char.ofNat 125 :: rest)))) := by
        simp [prettyMember]
      rw [skipWs_of_ws _ _ hws, hmem, skipWs_not_ws '\"' _ (by decide)]
      dsimp only
      rw [if_pos rfl, parseStringBody_escape]
      dsimp only
      rw [skipWs_not_ws ':' _ (by decide)]
      dsimp only
      rw [if_pos rfl]
      have hv2 : parseV fuel (' ' :: (prettyV v ind2 ++ (prettyObjTail kvs ind2
          ++ '\n' :: (spaces ind ++ Char.ofNat 125 :: rest))))
          = some (v, prettyObjTail kvs ind2 ++ '\n' :: (spaces ind ++ Char.ofNat 125 :: rest)) := by
        rw [show (' ' :: (prettyV v ind2 ++ (prettyObjTail kvs ind2
            ++ '\n' :: (spaces ind ++ Char.ofNat 125 :: rest))))
          = [' '] ++ (prettyV v ind2 ++ (prettyObjTail kvs ind2
            ++ '\n' :: (spaces ind ++ Char.ofNat 125 :: rest))) from rfl]
        rw [parseV_ws fuel [' '] _ (by decide)]
        exact IHv v ind2 _ hwv (by omega)
      rw [hv2]
      dsimp only
      rw [show String.mk k.data = k from rfl]
      rw [objInsert_fresh acc k v (fun q hq => hdisj q hq (k, v) (List.mem_cons_self _ _))]
      cases kvs with
      | nil =>
        rw [show prettyObjTail ([] : List (String × Json)) ind2 = [] from by simp [prettyObjTail],
          List.nil_append]
        rw [show ('\n' :: (spaces ind ++ Char.ofNat 125 :: rest))
          = ('\n' :: spaces ind) ++ (Char.ofNat 125 :: rest) from rfl]
        rw [skipWs_of_ws _ _ (nl_spaces_ws ind), skipWs_not_ws _ _ (by decide)]
        dsimp only
        rw [if_neg (by decide), if_pos rfl]
      | cons kv2 kvs2 =>
        obtain ⟨k2, v2⟩ := kv2
        obtain ⟨hwv2, hwkvs2⟩ := (wfM_cons_iff k2 v2 kvs2).1 hwkvs
        obtain ⟨hk1, hkd2⟩ := (keysDistinct_cons_iff k v ((k2, v2) :: kvs2)).1 hkd
        have htail : prettyObjTail ((k2, v2) :: kvs2) ind2
            ++ '\n' :: (spaces ind ++ Char.ofNat 125 :: rest)
            = ',' :: (('\n' :: spaces ind2) ++ (prettyMember (k2, v2) ind2
              ++ (prettyObjTail kvs2 ind2 ++ '\n' :: (spaces ind ++ Char.ofNat 125 :: rest)))) := by
          simp [prettyObjTail]
        rw [htail, skipWs_not_ws ',' _ (by decide)]
        dsimp only
        rw [if_pos rfl]
        have hdisj2 : ∀ q ∈ acc ++ [(k, v)], ∀ p ∈ (k2, v2) :: kvs2,
            (q : String × Json).1 ≠ (p : String × Json).1 := by
          intro q hq p hp
          rcases List.mem_append.1 hq with hq1 | hq2
          · exact hdisj q hq1 p (List.mem_cons_of_mem _ hp)
          · rw [List.mem_singleton.1 hq2]
            exact fun he => (hk1 p hp) he.symm
        rw [sizeM_cons] at hsz
        have happ := IHo k2 v2 kvs2 (acc ++ [(k, v)]) ('\n' :: spaces ind2) ind2 ind rest
          (nl_spaces_ws ind2) hwv2 hwkvs2 hkd2 hdisj2 (by rw [sizeM_cons]; omega)
        rw [show (acc ++ [(k, v)]) ++ (k2, v2) :: kvs2 = acc ++ (k, v) :: (k2, v2) :: kvs2
          from by simp] at happ
        exact happ

/-! ## Fuel sufficiency: the size measure is below the output length -/

theorem size_le_pretty_all : ∀ n : Nat,
    (∀ j, sizeJ j ≤ n → wfJ j = true → ∀ ind, sizeJ j ≤ (prettyV j ind).length) ∧
    (∀ xs, sizeL xs ≤ n → wfL xs = true → ∀ ind, sizeL xs ≤ (prettyArrTail xs ind).length) ∧
    (∀ kvs, sizeM kvs ≤ n → wfM kvs = true → ∀ ind,
      sizeM kvs ≤ (prettyObjTail kvs ind).length) := by
  intro n
  induction n with
  | zero =>
    refine ⟨?_, ?_, ?_⟩
    · intro j hn _ _
      have := sizeJ_pos j
      omega
    · intro xs hn _ ind
      cases xs with
      | nil => simp [sizeL, prettyArrTail]
      | cons x xs =>
        rw [sizeL_cons] at hn
        omega
    · intro kvs hn _ ind
      cases kvs with
      | nil => simp [sizeM, prettyObjTail]
      | cons kv kvs =>
        obtain ⟨k, v⟩ := kv
        rw [sizeM_cons] at hn
        omega
  | succ n ih =>
    obtain ⟨ih1, ih2, ih3⟩ := ih
    refine ⟨?_, ?_, ?_⟩
    · intro j hn hw ind
      cases j with
      | null => simp [sizeJ, prettyV]
      | bool b => cases b <;> simp [sizeJ, prettyV]
      | num lexeme => simp [wfJ] at hw
      | str s => simp [sizeJ, prettyV]
      | arr elems =>
        cases elems with
        | nil => simp [sizeJ, sizeL, prettyV]
        | cons x xs =>
          obtain ⟨hwx, hwxs⟩ := (wfL_cons_iff x xs).1 ((wfJ_arr_iff (x :: xs)).1 hw)
          rw [sizeJ_arr, sizeL_cons] at hn ⊢
          have b1 := ih1 x (by omega) hwx (ind + 2)
          have b2 := ih2 xs (by omega) hwxs (ind + 2)
          simp only [prettyV, spaces, List.length_cons, List.length_append,
            List.length_replicate]
          omega
      | obj fields =>
        cases fields with
        | nil => simp [sizeJ, sizeM, prettyV]
        | cons kv kvs =>
          obtain ⟨k, v⟩ := kv
          obtain ⟨hkd, hwm⟩ := (wfJ_obj_iff ((k, v) :: kvs)).1 hw
          obtain ⟨hwv, hwkvs⟩ := (wfM_cons_iff k v kvs).1 hwm
          rw [sizeJ_obj, sizeM_cons] at hn ⊢
          have b1 := ih1 v (by omega) hwv (ind + 2)
          have b2 := ih3 kvs (by omega) hwkvs (ind + 2)
          simp only [prettyV, prettyMember, spaces, List.length_cons, List.length_append,
            List.length_replicate]
          omega
    · intro xs hn hw ind
      cases xs with
      | nil => simp [sizeL, prettyArrTail]
      | cons x xs =>
        obtain ⟨hwx, hwxs⟩ := (wfL_cons_iff x xs).1 hw
        rw [sizeL_cons] at hn ⊢
        have b1 := ih1 x (by omega) hwx ind
        have b2 := ih2 xs (by omega) hwxs ind
        simp only [prettyArrTail, spaces, List.length_cons, List.length_append,
          List.length_replicate]
        omega
    · intro kvs hn hw ind
      cases kvs with
      | nil => simp [sizeM, prettyObjTail]
      | cons kv kvs =>
        obtain ⟨k, v⟩ := kv
        obtain ⟨hwv, hwkvs⟩ := (wfM_cons_iff k v kvs).1 hw
        rw [sizeM_cons] at hn ⊢
        have b1 := ih1 v (by omega) hwv ind
        have b2 := ih3 kvs (by omega) hwkvs ind
        simp only [prettyObjTail, prettyMember, spaces, List.length_cons, List.length_append,
          List.length_replicate]
        omega

theorem sizeJ_le_length (j : Json) (hw : wfJ j = true) (ind : Nat) :
    sizeJ j ≤ (prettyV j ind).length :=
  (size_le_pretty_all (sizeJ j)).1 j (le_refl _) hw ind

/-! ## The generated JSON is well-formed and re-parses to the built object -/

theorem wfL_map_str (l : List String) : wfL (l.map Json.str) = true := by
  induction l with
  | nil => simp [wfL]
  | cons a l ih => simp [wfL, wfJ, ih]

theorem wf_build (fs : FormState) : wfJ (buildJsonObject fs) = true := by
  simp [buildJsonObject, wfJ, wfM, wfL, keysDistinct, wfL_map_str]

theorem parseJson_generate (fs : FormState) :
    parseJson (generateJsonString fs) = some (buildJsonObject fs) := by
  have hw := wf_build fs
  unfold parseJson generateJsonString jsonStringify2
  rw [show (String.mk (prettyV (buildJsonObject fs) 0)).data
    = prettyV (buildJsonObject fs) 0 from rfl]
  have hfuel : sizeJ (buildJsonObject fs) ≤ (prettyV (buildJsonObject fs) 0).length + 1 := by
    have := sizeJ_le_length (buildJsonObject fs) hw 0
    omega
  have hp := (parse_pretty_all ((prettyV (buildJsonObject fs) 0).length + 1)).1
    (buildJsonObject fs) 0 [] hw hfuel
  rw [List.append_nil] at hp
  rw [hp]
  rfl

theorem selfTestChecks_build (fs : FormState) :
    selfTestChecks (buildJsonObject fs) = some true := by
  simp [selfTestChecks, buildJsonObject, requiredKeys, jsEvery, jsIn, nestedKeysOk, jsGet,
    lookupKey]

/-- C1: for every form state, generating the JSON text (build, then serialize
with two-space indentation), re-parsing it and running the self-test
validator yields the status `valid`. -/
theorem generated_json_selftests_valid (fs : FormState) :
    selfTestStatus (generateJsonString fs) = ValidationStatus.valid := by
  unfold selfTestStatus
  rw [parseJson_generate fs]
  dsimp only
  rw [selfTestChecks_build fs]

/-! ## Validator characterization (C3) -/

theorem jsIn_obj (k : String) (kvs : List (String × Json)) :
    jsIn k (Json.obj kvs) = some (hasKeyB kvs k) := rfl

theorem jsGet_obj (k : String) (kvs : List (String × Json)) :
    jsGet (Json.obj kvs) k = lookupKey kvs k := rfl

theorem jsEvery_obj (ks : List String) (kvs : List (String × Json)) :
    jsEvery ks (Json.obj kvs) = some (ks.all (fun k2 => hasKeyB kvs k2)) := by
  induction ks with
  | nil => rfl
  | cons k ks ih =>
    simp only [jsEvery, jsIn_obj, List.all_cons]
    cases h : hasKeyB kvs k with
    | false => simp
    | true => simpa using ih

theorem nestedKeysOk_obj (c : List (String × Json)) (k1 k2 k3 : String) :
    nestedKeysOk (some (Json.obj c)) k1 k2 k3
      = some (hasKeyB c k1 && hasKeyB c k2 && hasKeyB c k3) := by
  simp only [nestedKeysOk, jsIn_obj]
  cases h1 : hasKeyB c k1 with
  | false => simp
  | true =>
    cases h2 : hasKeyB c k2 with
    | false => simp
    | true => simp

theorem selfTestChecks_eq_claimShape (j : Json) :
    (selfTestChecks j = some true) ↔ claimShape j = true := by
  cases j with
  | null => simp [selfTestChecks, jsEvery, requiredKeys, jsIn, claimShape]
  | bool b => simp [selfTestChecks, jsEvery, requiredKeys, jsIn, claimShape]
  | num lexeme => simp [selfTestChecks, jsEvery, requiredKeys, jsIn, claimShape]
  | str s => simp [selfTestChecks, jsEvery, requiredKeys, jsIn, claimShape]
  | arr elems =>
    simp [selfTestChecks, jsEvery, requiredKeys, jsIn, claimShape, nestedKeysOk, jsGet]
  | obj kvs =>
    simp only [selfTestChecks, jsEvery_obj, jsGet_obj]
    cases hcam : lookupKey kvs "camera" with
    | none =>
      simp [nestedKeysOk, claimShape, hcam]
    | some cv =>
      cases cv with
      | null => simp [nestedKeysOk, jsIn, claimShape, hcam]
      | bool b2 => simp [nestedKeysOk, jsIn, claimShape, hcam]
      | num lex2 => simp [nestedKeysOk, jsIn, claimShape, hcam]
      | str s2 => simp [nestedKeysOk, jsIn, claimShape, hcam]
      | arr l2 =>
        rw [show nestedKeysOk (some (Json.arr l2)) "movement" "angle" "focus" = some false
          from rfl]
        cases hs : nestedKeysOk (lookupKey kvs "soundscape") "primary" "secondary" "quality" with
        | none => simp [claimShape, hcam]
        | some sb => simp [claimShape, hcam]
      | obj c =>
        rw [nestedKeysOk_obj]
        cases hsnd : lookupKey kvs "soundscape" with
        | none => simp [nestedKeysOk, claimShape, hcam, hsnd]
        | some sv =>
          cases sv with
          | null => simp [nestedKeysOk, jsIn, claimShape, hcam, hsnd]
          | bool b3 => simp [nestedKeysOk, jsIn, claimShape, hcam, hsnd]
          | num lex3 => simp [nestedKeysOk, jsIn, claimShape, hcam, hsnd]
          | str s3 => simp [nestedKeysOk, jsIn, claimShape, hcam, hsnd]
          | arr l3 =>
            rw [show nestedKeysOk (some (Json.arr l3)) "primary" "secondary" "quality"
              = some false from rfl]
            simp [claimShape, hcam, hsnd]
          | obj sc =>
            rw [nestedKeysOk_obj]
            simp only [claimShape, hcam, hsnd, Option.some.injEq]

/-- C3: the self-test validator returns `valid` exactly when the text parses
as JSON to a top-level object carrying the seven required keys whose
`camera` value is an object with `movement`/`angle`/`focus` and whose
`soundscape` value is an object with `primary`/`secondary`/`quality`; every
other input — malformed text included — yields `invalid`, never an
exception (the result is always one of the two statuses). -/
theorem validator_characterization (text : String) :
    (selfTestStatus text = ValidationStatus.valid ↔
      ∃ j, parseJson text = some j ∧ claimShape j = true) ∧
    (selfTestStatus text = ValidationStatus.valid ∨
      selfTestStatus text = ValidationStatus.invalid) := by
  unfold selfTestStatus
  cases hp : parseJson text with
  | none =>
    refine ⟨⟨fun h => absurd h (by decide), fun h => ?_⟩, Or.inr rfl⟩
    obtain ⟨j2, hj2, _⟩ := h
    simp at hj2
  | some j =>
    dsimp only
    have hiff := selfTestChecks_eq_claimShape j
    cases hc : selfTestChecks j with
    | none =>
      rw [hc] at hiff
      refine ⟨⟨fun h => absurd h (by decide), fun h => ?_⟩, Or.inr rfl⟩
      obtain ⟨j2, hj2, hcs⟩ := h
      rw [Option.some.injEq] at hj2
      subst hj2
      exact Option.noConfusion (hiff.2 hcs)
    | some b =>
      cases b with
      | true =>
        rw [hc] at hiff
        exact ⟨⟨fun _ => ⟨j, rfl, hiff.1 rfl⟩, fun _ => rfl⟩, Or.inl rfl⟩
      | false =>
        rw [hc] at hiff
        refine ⟨⟨fun h => absurd h (by decide), fun h => ?_⟩, Or.inr rfl⟩
        obtain ⟨j2, hj2, hcs⟩ := h
        rw [Option.some.injEq] at hj2
        subst hj2
        have hfalse := hiff.2 hcs
        simp at hfalse
